import Mathlib

/-!
Verification development for the capability-map client-side state core
(`capabilityMapApp.js` and `colorThemes.js`).

The JavaScript data objects are embedded as Lean structures; the event
handlers that the claims are about are embedded as pure functions
(`handleColorSelect`, `categoriesWithCapabilities`, `getHoursForSize`,
`handleBulkApplied`, zoom handlers) and, for the undo/redo history
subsystem, as a small-step machine over an explicit object heap so that
JavaScript reference aliasing is representable (`saveHistory`,
`restoreFromHistory`, `handleUndo`, `handleRedo`, `handleDrop`).
JavaScript strings are `String`, nullable fields are `Option`, numbers
that only hold integral record data are `Nat`, and the fractional zoom
factor and color arithmetic use `ℚ`.
-/

namespace CapMap

/-- A capability record, after `loadMapData` materialises it into the
snapshot.  `Phase__c` and `Color__c` are nullable in the data model and
are embedded as `Option` (`none` for a JavaScript null/undefined/empty
value).  `Hours_Override__c` uses `0` for the unset value, matching the
JavaScript falsiness checks applied to it. -/
structure Capability where
  Id : String
  Name : String
  Capability_Category__c : String
  Size__c : String
  Phase__c : Option String
  Color__c : Option String
  Calculated_Hours__c : Nat
  Hours_Override__c : Nat
  Sort_Order__c : Nat
deriving DecidableEq, Inhabited

/-- A category record. -/
structure Category where
  Id : String
  Name : String
  Sort_Order__c : Nat
  Is_Subcategory__c : Bool
deriving DecidableEq, Inhabited

/-! ## Zoom (`handleZoomIn` / `handleZoomOut`, initial `zoom = 1`) -/

/-- `handleZoomIn`: `this.zoom = Math.min(1.5, this.zoom + 0.1)`. -/
def handleZoomIn (zoom : ℚ) : ℚ := min (3/2) (zoom + 1/10)

/-- `handleZoomOut`: `this.zoom = Math.max(0.5, this.zoom - 0.1)`. -/
def handleZoomOut (zoom : ℚ) : ℚ := max (1/2) (zoom - 1/10)

/-- A user zoom action. -/
inductive ZoomOp where
  | zoomIn
  | zoomOut
deriving DecidableEq

/-- Apply one zoom action. -/
def applyZoomOp (zoom : ℚ) : ZoomOp → ℚ
  | .zoomIn => handleZoomIn zoom
  | .zoomOut => handleZoomOut zoom

/-- Run a sequence of zoom actions from a starting zoom factor. -/
def runZoom (zoom : ℚ) (ops : List ZoomOp) : ℚ :=
  ops.foldl applyZoomOp zoom

theorem applyZoomOp_bounds (zoom : ℚ) (hlo : 1/2 ≤ zoom) (hhi : zoom ≤ 3/2)
    (op : ZoomOp) : 1/2 ≤ applyZoomOp zoom op ∧ applyZoomOp zoom op ≤ 3/2 := by
  cases op <;>
    simp only [applyZoomOp, handleZoomIn, handleZoomOut] <;>
    constructor
  · exact le_min (by norm_num) (by linarith)
  · exact min_le_left _ _
  · exact le_max_left _ _
  · exact max_le (by norm_num) (by linarith)

theorem runZoom_bounds (zoom : ℚ) (hlo : 1/2 ≤ zoom) (hhi : zoom ≤ 3/2)
    (ops : List ZoomOp) : 1/2 ≤ runZoom zoom ops ∧ runZoom zoom ops ≤ 3/2 := by
  induction ops generalizing zoom with
  | nil => exact ⟨hlo, hhi⟩
  | cons op ops ih =>
      obtain ⟨h1, h2⟩ := applyZoomOp_bounds zoom hlo hhi op
      exact ih _ h1 h2

/-- C10: starting from the initial zoom factor `1`, any sequence of
zoom-in / zoom-out actions keeps the zoom factor inside `[0.5, 1.5]`. -/
theorem zoom_stays_in_bounds (ops : List ZoomOp) :
    1/2 ≤ runZoom 1 ops ∧ runZoom 1 ops ≤ 3/2 :=
  runZoom_bounds 1 (by norm_num) (by norm_num) ops

/-! ## Color selection (`handleColorSelect`)

The selection set `this.selectedIds` is embedded as a list of
identifiers queried by membership.  A JavaScript `Set` built by
successive `add` calls is embedded as a duplicate-free list in insertion
order. -/

/-- `Set.add`: append the element unless it is already present. -/
def jsSetAdd (l : List String) (x : String) : List String :=
  if l.contains x then l else l ++ [x]

/-- `new Set(list)`: insertion-order deduplication of a list. -/
def jsSetOfList (l : List String) : List String :=
  l.foldl jsSetAdd []

/-- Insertion-order deduplication with an accumulator of already seen
elements; `dedupFirst` keeps the first occurrence of each element, as
iterating a JavaScript `Set` does. -/
def dedupFirstAux (seen : List String) : List String → List String
  | [] => []
  | x :: xs =>
      if seen.contains x then dedupFirstAux seen xs
      else x :: dedupFirstAux (x :: seen) xs

/-- `[...new Set(l)]` for a list of strings. -/
def dedupFirst (l : List String) : List String := dedupFirstAux [] l

/-- The `phaseColorMap` built in `handleColorSelect`: scanning all
capabilities that have both a phase and a color, the first-seen color
for the given phase (later occurrences do not overwrite). -/
def phaseColorMap (caps : List Capability) (phase : String) : Option String :=
  (caps.find? (fun c => c.Phase__c == some phase && c.Color__c.isSome)).bind
    (fun c => c.Color__c)

/-- The `colorPhaseMap` built in `handleColorSelect`: first-seen phase
for the given color among capabilities with both fields set. -/
def colorPhaseMap (caps : List Capability) (color : String) : Option String :=
  (caps.find? (fun c => c.Phase__c.isSome && c.Color__c == some color)).bind
    (fun c => c.Phase__c)

/-- `phasesInSelection`: the distinct (first-occurrence order) non-null
phases among the selected capabilities. -/
def phasesInSelection (caps : List Capability) (selectedIds : List String) :
    List String :=
  dedupFirst ((caps.filter (fun c => selectedIds.contains c.Id)).filterMap
    (fun c => c.Phase__c))

/-- The "color in use by another phase" check: `some p` when the
selected color is already mapped to phase `p` and `p` is not among the
selection's phases. -/
def colorInUseCheck (caps : List Capability) (phases : List String)
    (selectedColor : String) : Option String :=
  match colorPhaseMap caps selectedColor with
  | some p => if phases.contains p then none else some p
  | none => none

/-- One entry of the `conflicts` array in `handleColorSelect`. -/
structure PhaseConflict where
  phase : String
  existingColor : String
  count : Nat
deriving DecidableEq

/-- The `conflicts` array: for each phase of the selection that is
already mapped to a different color, and for which non-selected
capabilities of that phase still hold a color other than the selected
one, a conflict record. -/
def conflictsFor (caps : List Capability) (selectedIds : List String)
    (selectedColor : String) (phases : List String) : List PhaseConflict :=
  phases.filterMap (fun phase =>
    match phaseColorMap caps phase with
    | some existingColor =>
        if existingColor ≠ selectedColor then
          let others := caps.filter (fun c =>
            c.Phase__c == some phase && !selectedIds.contains c.Id &&
            c.Color__c.isSome && c.Color__c != some selectedColor)
          if others.length > 0 then
            some ⟨phase, existingColor, others.length⟩
          else none
        else none
    | none => none)

/-- A rejection reason surfaced as a warning toast by
`handleColorSelect`. -/
inductive ColorWarning where
  | noSelection
  | colorInUse (phase : String)
  | phaseConflict (conflicts : List PhaseConflict)
deriving DecidableEq

/-- Result of `handleColorSelect`: the (possibly unchanged) capability
snapshot, the affected-identifier set (in `Set` insertion order), and
the warning when the assignment was rejected. -/
structure ColorSelectResult where
  capabilities : List Capability
  affectedIds : List String
  warning : Option ColorWarning
deriving DecidableEq

/-- The inner `forEach` of the propagation step: add to the accumulator
the identifier of every capability whose phase is the given one. -/
def addPhaseCapIds (caps : List Capability) (phase : String)
    (acc : List String) : List String :=
  caps.foldl (fun acc2 c =>
    if c.Phase__c == some phase then jsSetAdd acc2 c.Id else acc2) acc

/-- The `affectedIds` set built in the success branch of
`handleColorSelect`: the selection, then every capability of a phase in
the selection's phases, in `Set` insertion order. -/
def affectedIdsFold (caps : List Capability) (selectedIds : List String)
    (phases : List String) : List String :=
  phases.foldl (fun acc phase => addPhaseCapIds caps phase acc)
    (jsSetOfList selectedIds)

/-- `handleColorSelect(event)`, with the event's color and the relevant
component state as arguments.  On rejection the snapshot is returned
untouched, mirroring the early `return` in the handler. -/
def handleColorSelect (caps : List Capability) (selectedIds : List String)
    (applyColorToAll : Bool) (selectedColor : String) : ColorSelectResult :=
  if selectedIds.isEmpty then ⟨caps, [], some .noSelection⟩
  else if applyColorToAll then
    ⟨caps.map (fun c =>
        if selectedIds.contains c.Id then { c with Color__c := some selectedColor }
        else c),
     jsSetOfList ((caps.filter (fun c => selectedIds.contains c.Id)).map
       (fun c => c.Id)),
     none⟩
  else
    let phases := phasesInSelection caps selectedIds
    match colorInUseCheck caps phases selectedColor with
    | some p => ⟨caps, [], some (.colorInUse p)⟩
    | none =>
        let conflicts := conflictsFor caps selectedIds selectedColor phases
        if conflicts.isEmpty then
          let affected := affectedIdsFold caps selectedIds phases
          ⟨caps.map (fun c =>
              if affected.contains c.Id then { c with Color__c := some selectedColor }
              else c),
           affected, none⟩
        else ⟨caps, [], some (.phaseConflict conflicts)⟩

theorem mem_dedupFirstAux {a : String} (l : List String) (seen : List String) :
    a ∈ dedupFirstAux seen l ↔ a ∈ l ∧ a ∉ seen := by
  induction l generalizing seen with
  | nil => simp [dedupFirstAux]
  | cons x xs ih =>
      simp only [dedupFirstAux]
      by_cases hx : x ∈ seen
      · rw [if_pos (by simpa using hx), ih, List.mem_cons]
        constructor
        · exact fun ⟨h1, h2⟩ => ⟨Or.inr h1, h2⟩
        · rintro ⟨rfl | h1, h2⟩
          · exact absurd hx h2
          · exact ⟨h1, h2⟩
      · rw [if_neg (by simpa using hx)]
        simp only [List.mem_cons, ih, List.mem_cons]
        constructor
        · rintro (rfl | ⟨h1, h2⟩)
          · exact ⟨Or.inl rfl, hx⟩
          · exact ⟨Or.inr h1, fun hs => h2 (Or.inr hs)⟩
        · rintro ⟨rfl | h1, h2⟩
          · exact Or.inl rfl
          · by_cases hax : a = x
            · exact Or.inl hax
            · exact Or.inr ⟨h1, fun hs => by
                rcases hs with rfl | hs
                · exact hax rfl
                · exact h2 hs⟩

theorem mem_dedupFirst {a : String} (l : List String) :
    a ∈ dedupFirst l ↔ a ∈ l := by
  rw [dedupFirst, mem_dedupFirstAux]
  simp

theorem mem_jsSetAdd {a : String} (l : List String) (x : String) :
    a ∈ jsSetAdd l x ↔ a ∈ l ∨ a = x := by
  rw [jsSetAdd]
  by_cases hx : x ∈ l
  · rw [if_pos (by simpa using hx)]
    constructor
    · exact Or.inl
    · rintro (h | rfl)
      · exact h
      · exact hx
  · rw [if_neg (by simpa using hx)]
    simp

theorem mem_foldl_jsSetAdd {a : String} (l : List String) (acc : List String) :
    a ∈ l.foldl jsSetAdd acc ↔ a ∈ acc ∨ a ∈ l := by
  induction l generalizing acc with
  | nil => simp
  | cons x xs ih =>
      rw [List.foldl_cons, ih, mem_jsSetAdd]
      simp only [List.mem_cons]
      tauto

theorem mem_jsSetOfList {a : String} (l : List String) :
    a ∈ jsSetOfList l ↔ a ∈ l := by
  rw [jsSetOfList, mem_foldl_jsSetAdd]
  simp

theorem mem_addPhaseCapIds {a : String} (caps : List Capability) (phase : String)
    (acc : List String) :
    a ∈ addPhaseCapIds caps phase acc ↔
      a ∈ acc ∨ ∃ c ∈ caps, c.Phase__c = some phase ∧ c.Id = a := by
  rw [addPhaseCapIds]
  induction caps generalizing acc with
  | nil => simp
  | cons c cs ih =>
      rw [List.foldl_cons]
      by_cases hc : c.Phase__c = some phase
      · rw [if_pos (by simpa using hc), ih, mem_jsSetAdd]
        simp only [List.mem_cons]
        constructor
        · rintro ((h | rfl) | h)
          · exact Or.inl h
          · exact Or.inr ⟨c, Or.inl rfl, hc, rfl⟩
          · obtain ⟨d, hd, h1, h2⟩ := h
            exact Or.inr ⟨d, Or.inr hd, h1, h2⟩
        · rintro (h | ⟨d, (rfl | hd), h1, h2⟩)
          · exact Or.inl (Or.inl h)
          · exact Or.inl (Or.inr h2.symm)
          · exact Or.inr ⟨d, hd, h1, h2⟩
      · rw [if_neg (by simpa using hc), ih]
        simp only [List.mem_cons]
        constructor
        · rintro (h | ⟨d, hd, h1, h2⟩)
          · exact Or.inl h
          · exact Or.inr ⟨d, Or.inr hd, h1, h2⟩
        · rintro (h | ⟨d, (rfl | hd), h1, h2⟩)
          · exact Or.inl h
          · exact absurd h1 hc
          · exact Or.inr ⟨d, hd, h1, h2⟩

theorem mem_affectedIdsFold {a : String} (caps : List Capability)
    (selectedIds : List String) (phases : List String) :
    a ∈ affectedIdsFold caps selectedIds phases ↔
      a ∈ selectedIds ∨
        ∃ phase ∈ phases, ∃ c ∈ caps, c.Phase__c = some phase ∧ c.Id = a := by
  rw [affectedIdsFold]
  have main : ∀ (ps : List String) (acc : List String),
      a ∈ ps.foldl (fun acc phase => addPhaseCapIds caps phase acc) acc ↔
        a ∈ acc ∨ ∃ phase ∈ ps, ∃ c ∈ caps, c.Phase__c = some phase ∧ c.Id = a := by
    intro ps
    induction ps with
    | nil => simp
    | cons p ps ih =>
        intro acc
        rw [List.foldl_cons, ih, mem_addPhaseCapIds]
        simp only [List.mem_cons]
        constructor
        · rintro ((h | h) | ⟨q, hq, h2⟩)
          · exact Or.inl h
          · exact Or.inr ⟨p, Or.inl rfl, h⟩
          · exact Or.inr ⟨q, Or.inr hq, h2⟩
        · rintro (h | ⟨q, (rfl | hq), h2⟩)
          · exact Or.inl (Or.inl h)
          · exact Or.inl (Or.inr h2)
          · exact Or.inr ⟨q, hq, h2⟩
  rw [main, mem_jsSetOfList]

theorem mem_phasesInSelection {P : String} (caps : List Capability)
    (selectedIds : List String) :
    P ∈ phasesInSelection caps selectedIds ↔
      ∃ c ∈ caps, selectedIds.contains c.Id = true ∧ c.Phase__c = some P := by
  rw [phasesInSelection, mem_dedupFirst]
  simp only [List.mem_filterMap, List.mem_filter]
  constructor
  · rintro ⟨c, ⟨h1, h2⟩, h3⟩
    exact ⟨c, h1, h2, h3⟩
  · rintro ⟨c, h1, h2, h3⟩
    exact ⟨c, ⟨h1, h2⟩, h3⟩

/-- C1: if some phase `P` of a selected capability is already mapped to
color `C₁`, and a capability outside the selection with phase `P` still
holds `C₁`, then assigning a different color `C₂` without the
apply-to-all override is rejected with a (non-"no selection") conflict
warning and leaves the capabilities snapshot structurally unchanged. -/
theorem handleColorSelect_conflict_rejects
    (caps : List Capability) (sel : List String) (P C₁ C₂ : String)
    (scap ocap : Capability)
    (hC : C₂ ≠ C₁)
    (hmapped : phaseColorMap caps P = some C₁)
    (hs1 : scap ∈ caps) (hs2 : sel.contains scap.Id = true)
    (hs3 : scap.Phase__c = some P)
    (ho1 : ocap ∈ caps) (ho2 : sel.contains ocap.Id = false)
    (ho3 : ocap.Phase__c = some P) (ho4 : ocap.Color__c = some C₁) :
    (handleColorSelect caps sel false C₂).capabilities = caps ∧
    (handleColorSelect caps sel false C₂).affectedIds = [] ∧
    (handleColorSelect caps sel false C₂).warning ≠ none ∧
    (handleColorSelect caps sel false C₂).warning ≠ some ColorWarning.noSelection := by
  have hselne : sel ≠ [] := by
    intro h
    subst h
    simp at hs2
  have hisEmpty : sel.isEmpty = false := by simpa using hselne
  have hP : P ∈ phasesInSelection caps sel :=
    (mem_phasesInSelection caps sel).mpr ⟨scap, hs1, hs2, hs3⟩
  rw [handleColorSelect, hisEmpty]
  simp only [Bool.false_eq_true, if_false]
  cases hcheck : colorInUseCheck caps (phasesInSelection caps sel) C₂ with
  | some p => simp
  | none =>
      have hoc : ocap ∈ caps.filter (fun c =>
          c.Phase__c == some P && !sel.contains c.Id &&
          c.Color__c.isSome && c.Color__c != some C₂) := by
        rw [List.mem_filter]
        refine ⟨ho1, ?_⟩
        rw [ho3, ho4, ho2]
        simp [bne, hC.symm]
      have hlen : 0 < (caps.filter (fun c =>
          c.Phase__c == some P && !sel.contains c.Id &&
          c.Color__c.isSome && c.Color__c != some C₂)).length :=
        List.length_pos.mpr (List.ne_nil_of_mem hoc)
      have hconfmem :
          (⟨P, C₁, (caps.filter (fun c =>
            c.Phase__c == some P && !sel.contains c.Id &&
            c.Color__c.isSome && c.Color__c != some C₂)).length⟩ : PhaseConflict) ∈
            conflictsFor caps sel C₂ (phasesInSelection caps sel) := by
        rw [conflictsFor, List.mem_filterMap]
        refine ⟨P, hP, ?_⟩
        rw [hmapped]
        simp only [ne_eq, hC.symm, not_false_iff, if_true, if_pos hlen]
      have hconfne : (conflictsFor caps sel C₂ (phasesInSelection caps sel)).isEmpty = false := by
        simp only [List.isEmpty_eq_false, ne_eq]
        exact List.ne_nil_of_mem hconfmem
      rw [hconfne]
      simp

/-- A two-capability snapshot where phase "Phase 1" already holds color
`#111111` on both capabilities. -/
def capConflictA : Capability :=
  { Id := "a", Name := "Alpha", Capability_Category__c := "cat1",
    Size__c := "M", Phase__c := some "Phase 1", Color__c := some "#111111",
    Calculated_Hours__c := 8, Hours_Override__c := 0, Sort_Order__c := 0 }

def capConflictB : Capability :=
  { Id := "b", Name := "Beta", Capability_Category__c := "cat1",
    Size__c := "L", Phase__c := some "Phase 1", Color__c := some "#111111",
    Calculated_Hours__c := 16, Hours_Override__c := 0, Sort_Order__c := 1 }

def capsConflict : List Capability := [capConflictA, capConflictB]

theorem handleColorSelect_conflict_rejects_witness :
    ("#222222" : String) ≠ "#111111" ∧
    phaseColorMap capsConflict "Phase 1" = some "#111111" ∧
    capConflictA ∈ capsConflict ∧
    (["a"] : List String).contains capConflictA.Id = true ∧
    capConflictA.Phase__c = some "Phase 1" ∧
    capConflictB ∈ capsConflict ∧
    (["a"] : List String).contains capConflictB.Id = false ∧
    capConflictB.Phase__c = some "Phase 1" ∧
    capConflictB.Color__c = some "#111111" ∧
    (handleColorSelect capsConflict ["a"] false "#222222").capabilities = capsConflict ∧
    (handleColorSelect capsConflict ["a"] false "#222222").warning ≠ none := by
  have h := handleColorSelect_conflict_rejects capsConflict ["a"] "Phase 1"
    "#111111" "#222222" capConflictA capConflictB (by decide) (by decide)
    (by decide) (by decide) (by decide) (by decide) (by decide) (by decide)
    (by decide)
  exact ⟨by decide, by decide, by decide, by decide, by decide, by decide,
    by decide, by decide, by decide, h.1, h.2.2.1⟩

/-- The identifier list of a snapshot. -/
def capIds (caps : List Capability) : List String :=
  caps.map (fun c => c.Id)

/-- Whether an optional phase is among a list of phases (`null` phases
never match). -/
def phaseMem (phases : List String) : Option String → Bool
  | some p => phases.contains p
  | none => false

theorem contains_iff_mem (l : List String) (a : String) :
    l.contains a = true ↔ a ∈ l := by simp

theorem phaseMem_iff {phases : List String} {o : Option String} :
    phaseMem phases o = true ↔ ∃ p ∈ phases, o = some p := by
  cases o with
  | none => simp [phaseMem]
  | some p =>
      simp only [phaseMem, contains_iff_mem, Option.some_inj]
      constructor
      · exact fun h => ⟨p, h, rfl⟩
      · rintro ⟨q, hq, rfl⟩
        exact hq

/-- C2: with a non-empty selection, no color-in-use conflict and no
phase conflict, and the override flag unset, `handleColorSelect` warns
nothing, recolors exactly the selected capabilities and every other
capability whose phase occurs in the selection, and reports as affected
precisely the selection together with the propagated capabilities. -/
theorem handleColorSelect_propagates
    (caps : List Capability) (sel : List String) (C : String)
    (hsel : sel ≠ [])
    (hcheck : colorInUseCheck caps (phasesInSelection caps sel) C = none)
    (hconf : conflictsFor caps sel C (phasesInSelection caps sel) = [])
    (hids : (capIds caps).Nodup) :
    (handleColorSelect caps sel false C).warning = none ∧
    (handleColorSelect caps sel false C).capabilities =
      caps.map (fun c =>
        if sel.contains c.Id || phaseMem (phasesInSelection caps sel) c.Phase__c
        then { c with Color__c := some C } else c) ∧
    (∀ i : String, i ∈ (handleColorSelect caps sel false C).affectedIds ↔
      i ∈ sel ∨ ∃ c ∈ caps, c.Id = i ∧
        phaseMem (phasesInSelection caps sel) c.Phase__c = true) := by
  have hisEmpty : sel.isEmpty = false := by simpa using hsel
  rw [capIds] at hids
  rw [handleColorSelect, hisEmpty]
  simp only [Bool.false_eq_true, if_false, hcheck, hconf, List.isEmpty_nil,
    if_true]
  refine ⟨by trivial, ?_, ?_⟩
  · apply List.map_congr_left
    intro c hc
    have hcond : ((affectedIdsFold caps sel (phasesInSelection caps sel)).contains
        c.Id = true) ↔
        (sel.contains c.Id || phaseMem (phasesInSelection caps sel) c.Phase__c)
          = true := by
      rw [contains_iff_mem, mem_affectedIdsFold, Bool.or_eq_true,
        contains_iff_mem]
      have keyiff : (∃ phase ∈ phasesInSelection caps sel,
          ∃ d ∈ caps, d.Phase__c = some phase ∧ d.Id = c.Id) ↔
          phaseMem (phasesInSelection caps sel) c.Phase__c = true := by
        constructor
        · rintro ⟨phase, hph, d, hd, hdp, hdi⟩
          have hdc : d = c := List.inj_on_of_nodup_map hids hd hc hdi
          subst hdc
          rw [hdp]
          simpa [phaseMem, contains_iff_mem] using hph
        · intro h
          obtain ⟨p, hp, hcp⟩ := phaseMem_iff.mp h
          exact ⟨p, hp, c, hc, hcp, rfl⟩
      rw [keyiff]
    exact if_congr hcond rfl rfl
  · intro i
    rw [mem_affectedIdsFold]
    constructor
    · rintro (h | ⟨phase, hph, c, hc, h1, h2⟩)
      · exact Or.inl h
      · refine Or.inr ⟨c, hc, h2, ?_⟩
        rw [h1]
        simpa [phaseMem, contains_iff_mem] using hph
    · rintro (h | ⟨c, hc, h1, h2⟩)
      · exact Or.inl h
      · obtain ⟨p, hp, hcp⟩ := phaseMem_iff.mp h2
        exact Or.inr ⟨p, hp, c, hc, hcp, h1⟩

/-- A three-capability snapshot with no colors assigned yet. -/
def capFreshA : Capability :=
  { Id := "a", Name := "Alpha", Capability_Category__c := "cat1",
    Size__c := "M", Phase__c := some "Phase 1", Color__c := none,
    Calculated_Hours__c := 8, Hours_Override__c := 0, Sort_Order__c := 0 }

def capFreshB : Capability :=
  { Id := "b", Name := "Beta", Capability_Category__c := "cat1",
    Size__c := "L", Phase__c := some "Phase 1", Color__c := none,
    Calculated_Hours__c := 16, Hours_Override__c := 0, Sort_Order__c := 1 }

def capFreshD : Capability :=
  { Id := "d", Name := "Delta", Capability_Category__c := "cat2",
    Size__c := "S", Phase__c := some "Phase 2", Color__c := none,
    Calculated_Hours__c := 4, Hours_Override__c := 0, Sort_Order__c := 0 }

def capsFresh : List Capability := [capFreshA, capFreshB, capFreshD]

theorem handleColorSelect_propagates_witness :
    (["a"] : List String) ≠ [] ∧
    colorInUseCheck capsFresh (phasesInSelection capsFresh ["a"]) "#333333"
      = none ∧
    conflictsFor capsFresh ["a"] "#333333" (phasesInSelection capsFresh ["a"])
      = [] ∧
    (capIds capsFresh).Nodup ∧
    (handleColorSelect capsFresh ["a"] false "#333333").warning = none ∧
    (handleColorSelect capsFresh ["a"] false "#333333").capabilities =
      [{ capFreshA with Color__c := some "#333333" },
       { capFreshB with Color__c := some "#333333" }, capFreshD] := by
  have h := handleColorSelect_propagates capsFresh ["a"] "#333333"
    (by decide) (by decide) (by decide) (by decide)
  exact ⟨by decide, by decide, by decide, by decide, h.1,
    h.2.1.trans (by decide)⟩

/-! ## Color utilities (`colorThemes.js`)

JavaScript float arithmetic on color channels is embedded over `ℚ`;
`Math.round` is rounding half towards positive infinity. -/

/-- Value of one hexadecimal digit (`parseInt(·, 16)` per character;
a non-hex character yields 0 here, a case no well-formed color hits). -/
def hexDigitVal (c : Char) : Nat :=
  if '0' ≤ c ∧ c ≤ '9' then c.toNat - '0'.toNat
  else if 'a' ≤ c ∧ c ≤ 'f' then c.toNat - 'a'.toNat + 10
  else if 'A' ≤ c ∧ c ≤ 'F' then c.toNat - 'A'.toNat + 10
  else 0

/-- `parseInt(hexColor.slice(i, i+2), 16)`: the byte at character
positions `i`, `i+1` of a color string. -/
def parseHexPair (s : String) (i : Nat) : Nat :=
  16 * hexDigitVal (s.data.getD i '0') + hexDigitVal (s.data.getD (i + 1) '0')

/-- `n.toString(16).padStart(2, '0')` followed by `.toUpperCase()` for a
byte value. -/
def toHexByte (n : Nat) : String :=
  String.mk ["0123456789ABCDEF".data.getD (n / 16) '0',
             "0123456789ABCDEF".data.getD (n % 16) '0']

/-- `Math.round` for the rational embedding of JavaScript numbers. -/
def jsRound (q : ℚ) : ℤ := ⌊q + 1/2⌋

/-- `Math.max(0, Math.min(255, z))`. -/
def clampByte (z : ℤ) : Nat := (max 0 (min 255 z)).toNat

/-- `adjustBrightness(r, g, b, factor)` from `colorThemes.js`. -/
def adjustBrightness (r g b : Nat) (factor : ℚ) : String :=
  let adj : Nat → Nat := fun x =>
    if factor < 0 then clampByte (jsRound ((x : ℚ) * (1 + factor)))
    else clampByte (jsRound ((x : ℚ) + (255 - (x : ℚ)) * factor))
  "#" ++ toHexByte (adj r) ++ toHexByte (adj g) ++ toHexByte (adj b)

/-- `generateColorShades(hexColor)[size]`: the shade object keyed by
size (`none` for a key absent from the object). -/
def generateColorShades (hexColor : String) (size : String) : Option String :=
  let r := parseHexPair hexColor 1
  let g := parseHexPair hexColor 3
  let b := parseHexPair hexColor 5
  match size with
  | "XS" => some (adjustBrightness r g b (-(1/2)))
  | "S" => some (adjustBrightness r g b (-(7/20)))
  | "M" => some (adjustBrightness r g b (-(3/20)))
  | "L" => some hexColor
  | "XL" => some (adjustBrightness r g b (1/4))
  | "XXL" => some (adjustBrightness r g b (1/2))
  | "XXXL" => some (adjustBrightness r g b (7/10))
  | "TBD" => some "#E8E8E8"
  | _ => none

/-- `getTextColor(hexColor)` from `colorThemes.js`. -/
def getTextColor (hexColor : String) : String :=
  let r := parseHexPair hexColor 1
  let g := parseHexPair hexColor 3
  let b := parseHexPair hexColor 5
  let luminance : ℚ :=
    (299/1000 * (r : ℚ) + 587/1000 * (g : ℚ) + 114/1000 * (b : ℚ)) / 255
  if luminance > 1/2 then "#242424" else "#FFFFFF"

/-! ## View state and the derived view (`categoriesWithCapabilities`) -/

/-- `toLowerCase()`. -/
def strToLower (s : String) : String := String.mk (s.data.map Char.toLower)

/-- `hay.includes(needle)`: substring containment. -/
def strIncludes (hay needle : String) : Bool := decide (needle.data <:+: hay.data)

/-- One history entry: the deep-copied `{categories, capabilities}`
pair. -/
structure Snapshot where
  categories : List Category
  capabilities : List Capability
deriving DecidableEq, Inhabited

/-- The per-map record supplying the size→hours configuration
(`this.capabilityMap`); absent hour values are embedded as 0, matching
the `|| 0` fallbacks. -/
structure CapabilityMapRecord where
  XS_Hours__c : Nat
  S_Hours__c : Nat
  M_Hours__c : Nat
  L_Hours__c : Nat
  XL_Hours__c : Nat
  XXL_Hours__c : Nat
  XXXL_Hours__c : Nat
deriving DecidableEq, Inhabited

/-- The component state of `CapabilityMapApp` relevant to the embedded
handlers (tracked fields plus the untracked history fields). -/
structure AppState where
  categories : List Category
  capabilities : List Capability
  searchTerm : String
  viewFilter : String
  activeFilters : List String
  selectedPhaseFilters : List String
  selectedSizeFilters : List String
  selectedIds : List String
  applyColorToAll : Bool
  zoom : ℚ
  mapName : String
  capabilityMap : Option CapabilityMapRecord
  hasUnsavedChanges : Bool
  changedColorIds : List String
  history : List Snapshot
  historyIndex : Int
deriving DecidableEq

/-- One rendered capability tile: the capability's own fields (spread)
plus the computed presentation fields. -/
structure CapTile where
  cap : Capability
  isSelected : Bool
  displayHours : Nat
  displayPhase : String
  tileStyle : String
  tileClass : String
deriving DecidableEq

/-- One rendered category column. -/
structure CategoryView where
  category : Category
  capabilities : List CapTile
  headerClass : String
deriving DecidableEq

/-- The filter applied to a capability for one category inside
`categoriesWithCapabilities`: category match, search match, excluded
sizes, and the view-mode filter, in the handler's early-return form. -/
def viewPred (s : AppState) (category : Category) (cap : Capability) : Bool :=
  (cap.Capability_Category__c == category.Id) &&
  (strToLower s.searchTerm == "" ||
    strIncludes (strToLower cap.Name) (strToLower s.searchTerm)) &&
  !(!s.activeFilters.isEmpty && s.activeFilters.contains cap.Size__c) &&
  !((s.viewFilter == "tbd") && (cap.Size__c != "TBD")) &&
  !((s.viewFilter == "sized") && (cap.Size__c == "TBD"))

/-- The decoration step of `categoriesWithCapabilities`: selection
state, display fields, tile styling and the highlight (blur) class. -/
def decorateCap (s : AppState) (cap : Capability) : CapTile :=
  let hasPhaseFilter := !s.selectedPhaseFilters.isEmpty
  let hasSizeFilter := !s.selectedSizeFilters.isEmpty
  let hasAnyFilter := hasPhaseFilter || hasSizeFilter
  let baseColor := cap.Color__c.getD "#9CA3AF"
  let bgColor := (generateColorShades baseColor cap.Size__c).getD "#E8E8E8"
  let txtColor := getTextColor bgColor
  let matchesFilter :=
    !(hasPhaseFilter && !(phaseMem s.selectedPhaseFilters cap.Phase__c)) &&
    !(hasSizeFilter && !(s.selectedSizeFilters.contains cap.Size__c))
  let tileClass :=
    "capability-tile" ++
    (if s.selectedIds.contains cap.Id then " multi-selected" else "") ++
    (if hasAnyFilter && !matchesFilter then " blurred" else "")
  { cap := cap,
    isSelected := s.selectedIds.contains cap.Id,
    displayHours := cap.Calculated_Hours__c,
    displayPhase := cap.Phase__c.getD "",
    tileStyle := "background-color: " ++ bgColor ++ "; color: " ++ txtColor,
    tileClass := tileClass }

/-- The comparator `(a, b) => (a.Sort_Order__c || 0) - (b.Sort_Order__c
|| 0)` as the ordering it sorts by. -/
def tileLE (a b : CapTile) : Prop :=
  a.cap.Sort_Order__c ≤ b.cap.Sort_Order__c

instance : DecidableRel tileLE := fun a b =>
  inferInstanceAs (Decidable (a.cap.Sort_Order__c ≤ b.cap.Sort_Order__c))

instance : IsTotal CapTile tileLE :=
  ⟨fun a b => Nat.le_total a.cap.Sort_Order__c b.cap.Sort_Order__c⟩

instance : IsTrans CapTile tileLE := ⟨fun _ _ _ hab hbc => Nat.le_trans hab hbc⟩

/-- One category column of the derived view.  `Array.prototype.sort` is
required to be stable by the language specification; a stable sort's
output is unique, so it is embedded as insertion sort. -/
def categoryView (s : AppState) (category : Category) : CategoryView :=
  { category := category,
    capabilities :=
      List.insertionSort tileLE
        ((s.capabilities.filter (viewPred s category)).map (decorateCap s)),
    headerClass :=
      if category.Is_Subcategory__c then "subsection-header"
      else "category-header" }

/-- The derived view getter `categoriesWithCapabilities`. -/
def categoriesWithCapabilities (s : AppState) : List CategoryView :=
  s.categories.map (categoryView s)

/-- The per-category identifier lists of the derived view. -/
def viewCapIdsPerCategory (s : AppState) : List (List String) :=
  (categoriesWithCapabilities s).map (fun v => v.capabilities.map
    (fun t => t.cap.Id))

/-- The selection predicate as the specification states it: category
match, case-insensitive substring match when the search term is
non-empty, size not in the excluded-size set, and the view-mode
filter. -/
def specViewPred (s : AppState) (cat : Category) (cap : Capability) : Prop :=
  cap.Capability_Category__c = cat.Id ∧
  (s.searchTerm ≠ "" →
    strIncludes (strToLower cap.Name) (strToLower s.searchTerm) = true) ∧
  s.activeFilters.contains cap.Size__c = false ∧
  (s.viewFilter = "tbd" → cap.Size__c = "TBD") ∧
  (s.viewFilter = "sized" → cap.Size__c ≠ "TBD")

theorem strToLower_eq_empty_iff (s : String) : strToLower s = "" ↔ s = "" := by
  constructor
  · intro h
    have hd := congrArg String.data h
    simp only [strToLower] at hd
    have hnil : s.data = [] := List.map_eq_nil_iff.mp hd
    cases s with
    | mk data => simp_all
  · intro h
    subst h
    rfl

theorem searchClause_iff (s : AppState) (cap : Capability) :
    (strToLower s.searchTerm == "" ||
      strIncludes (strToLower cap.Name) (strToLower s.searchTerm)) = true ↔
    (s.searchTerm ≠ "" →
      strIncludes (strToLower cap.Name) (strToLower s.searchTerm) = true) := by
  rw [Bool.or_eq_true, beq_iff_eq, strToLower_eq_empty_iff]
  constructor
  · rintro (h | h) hne
    · exact absurd h hne
    · exact h
  · intro h
    by_cases he : s.searchTerm = ""
    · exact Or.inl he
    · exact Or.inr (h he)

theorem sizeClause_iff (l : List String) (x : String) :
    (!(!l.isEmpty && l.contains x)) = true ↔ l.contains x = false := by
  cases hc : l.contains x
  · simp
  · have hne : l ≠ [] := by
      intro h
      subst h
      simp at hc
    have hie : l.isEmpty = false := by simpa using hne
    simp [hie]

theorem notAndIff (a b : Bool) : (!(a && b)) = true ↔ (a = true → b = false) := by
  cases a <;> cases b <;> simp

theorem tbdClause_iff (vf size : String) :
    (!((vf == "tbd") && (size != "TBD"))) = true ↔
      (vf = "tbd" → size = "TBD") := by
  rw [notAndIff]
  constructor
  · intro h hv
    have hb := h (by simp [hv])
    simpa using hb
  · intro h ha
    have hv : vf = "tbd" := by simpa using ha
    simp [h hv]

theorem sizedClause_iff (vf size : String) :
    (!((vf == "sized") && (size == "TBD"))) = true ↔
      (vf = "sized" → size ≠ "TBD") := by
  rw [notAndIff]
  constructor
  · intro h hv
    have hb := h (by simp [hv])
    simpa using hb
  · intro h ha
    have hv : vf = "sized" := by simpa using ha
    simp [h hv]

/-- The code's filter and the specification's selection predicate
agree. -/
theorem viewPred_iff (s : AppState) (cat : Category) (cap : Capability) :
    viewPred s cat cap = true ↔ specViewPred s cat cap := by
  rw [viewPred, specViewPred]
  simp only [Bool.and_eq_true]
  rw [beq_iff_eq, searchClause_iff s cap, sizeClause_iff, tbdClause_iff,
    sizedClause_iff]
  tauto

/-- C3: the `k`-th column of the derived view carries the `k`-th
category and contains exactly the capabilities selected by the
specification's predicate for that category, sorted ascending by sort
order, with ordered pairs of the pre-sort (filtered) list preserved
(stability: ties keep prior relative order). -/
theorem categoriesWithCapabilities_spec (s : AppState) (k : Nat)
    (cat : Category) (v : CategoryView)
    (hcat : s.categories.get? k = some cat)
    (hv : (categoriesWithCapabilities s).get? k = some v) :
    v.category = cat ∧
    (∀ cap : Capability,
      (∃ t ∈ v.capabilities, t.cap = cap) ↔
        cap ∈ s.capabilities ∧ specViewPred s cat cap) ∧
    v.capabilities.Pairwise tileLE ∧
    (∀ a b : CapTile, tileLE a b →
      List.Sublist [a, b]
        ((s.capabilities.filter (viewPred s cat)).map (decorateCap s)) →
      List.Sublist [a, b] v.capabilities) := by
  have hv' : categoryView s cat = v := by
    rw [categoriesWithCapabilities, List.get?_map, hcat, Option.map_some'] at hv
    exact Option.some.inj hv
  subst hv'
  have hmm : ∀ t : CapTile, t ∈ (categoryView s cat).capabilities ↔
      t ∈ (s.capabilities.filter (viewPred s cat)).map (decorateCap s) :=
    fun t => List.mem_insertionSort tileLE
  refine ⟨rfl, ?_, ?_, ?_⟩
  · intro cap
    constructor
    · rintro ⟨t, ht, rfl⟩
      rw [hmm] at ht
      obtain ⟨c0, hc0, hdec⟩ := List.mem_map.mp ht
      have hcap : (decorateCap s c0).cap = c0 := rfl
      rw [← hdec, hcap]
      have hf := List.mem_filter.mp hc0
      exact ⟨hf.1, (viewPred_iff s cat c0).mp hf.2⟩
    · rintro ⟨hmem, hspec⟩
      refine ⟨decorateCap s cap, ?_, rfl⟩
      rw [hmm]
      exact List.mem_map_of_mem _
        (List.mem_filter.mpr ⟨hmem, (viewPred_iff s cat cap).mpr hspec⟩)
  · exact (List.sorted_insertionSort tileLE
      ((s.capabilities.filter (viewPred s cat)).map (decorateCap s)) : _)
  · intro a b hab hsub
    exact List.pair_sublist_insertionSort hab hsub

/-- The specification's three-capability, two-category scenario with
view filter `sized`. -/
def scenCat1 : Category :=
  { Id := "cat1", Name := "Cat1", Sort_Order__c := 0,
    Is_Subcategory__c := false }

def scenCat2 : Category :=
  { Id := "cat2", Name := "Cat2", Sort_Order__c := 1,
    Is_Subcategory__c := false }

def scenCapA : Capability :=
  { Id := "A", Name := "Alpha", Capability_Category__c := "cat1",
    Size__c := "M", Phase__c := none, Color__c := none,
    Calculated_Hours__c := 0, Hours_Override__c := 0, Sort_Order__c := 0 }

def scenCapB : Capability :=
  { Id := "B", Name := "Beta", Capability_Category__c := "cat1",
    Size__c := "TBD", Phase__c := none, Color__c := none,
    Calculated_Hours__c := 0, Hours_Override__c := 0, Sort_Order__c := 1 }

def scenCapC : Capability :=
  { Id := "C", Name := "Gamma", Capability_Category__c := "cat2",
    Size__c := "L", Phase__c := none, Color__c := none,
    Calculated_Hours__c := 0, Hours_Override__c := 0, Sort_Order__c := 0 }

def scenState : AppState :=
  { categories := [scenCat1, scenCat2],
    capabilities := [scenCapA, scenCapB, scenCapC],
    searchTerm := "", viewFilter := "sized", activeFilters := [],
    selectedPhaseFilters := [], selectedSizeFilters := [], selectedIds := [],
    applyColorToAll := false, zoom := 1, mapName := "Map",
    capabilityMap := none, hasUnsavedChanges := false, changedColorIds := [],
    history := [], historyIndex := -1 }

theorem categoriesWithCapabilities_spec_witness :
    scenState.categories.get? 0 = some scenCat1 ∧
    (categoriesWithCapabilities scenState).get? 0 =
      some (categoryView scenState scenCat1) ∧
    (categoryView scenState scenCat1).category = scenCat1 ∧
    viewCapIdsPerCategory scenState = [["A"], ["C"]] := by
  have h := categoriesWithCapabilities_spec scenState 0 scenCat1
    (categoryView scenState scenCat1) rfl rfl
  exact ⟨rfl, rfl, h.1, by decide⟩

/-- C9: the derived view is a pure function of the snapshot, search
term, view filter, excluded sizes, filter chips and selection — two
states agreeing on those inputs (whatever their other fields) produce
identical projections. -/
theorem categoriesWithCapabilities_pure (s1 s2 : AppState)
    (h1 : s1.categories = s2.categories)
    (h2 : s1.capabilities = s2.capabilities)
    (h3 : s1.searchTerm = s2.searchTerm)
    (h4 : s1.viewFilter = s2.viewFilter)
    (h5 : s1.activeFilters = s2.activeFilters)
    (h6 : s1.selectedPhaseFilters = s2.selectedPhaseFilters)
    (h7 : s1.selectedSizeFilters = s2.selectedSizeFilters)
    (h8 : s1.selectedIds = s2.selectedIds) :
    categoriesWithCapabilities s1 = categoriesWithCapabilities s2 := by
  have hvp : viewPred s1 = viewPred s2 := by
    funext cat cap
    rw [viewPred, viewPred, h3, h4, h5]
  have hdc : decorateCap s1 = decorateCap s2 := by
    funext cap
    rw [decorateCap, decorateCap, h6, h7, h8]
  have hcv : categoryView s1 = categoryView s2 := by
    funext cat
    rw [categoryView, categoryView, h2, hvp, hdc]
  rw [categoriesWithCapabilities, categoriesWithCapabilities, h1, hcv]

/-- A state identical to the scenario state on all view-relevant inputs
but different elsewhere (zoom, history, unsaved-changes flag). -/
def scenStateAlt : AppState :=
  { scenState with
    zoom := 1/2
    hasUnsavedChanges := true
    history := [⟨[], []⟩]
    historyIndex := 0 }

theorem categoriesWithCapabilities_pure_witness :
    scenState.hasUnsavedChanges ≠ scenStateAlt.hasUnsavedChanges ∧
    scenState.categories = scenStateAlt.categories ∧
    scenState.capabilities = scenStateAlt.capabilities ∧
    scenState.searchTerm = scenStateAlt.searchTerm ∧
    scenState.viewFilter = scenStateAlt.viewFilter ∧
    scenState.activeFilters = scenStateAlt.activeFilters ∧
    scenState.selectedPhaseFilters = scenStateAlt.selectedPhaseFilters ∧
    scenState.selectedSizeFilters = scenStateAlt.selectedSizeFilters ∧
    scenState.selectedIds = scenStateAlt.selectedIds ∧
    categoriesWithCapabilities scenState =
      categoriesWithCapabilities scenStateAlt := by
  exact ⟨by decide, rfl, rfl, rfl, rfl, rfl, rfl, rfl, rfl,
    categoriesWithCapabilities_pure scenState scenStateAlt
      rfl rfl rfl rfl rfl rfl rfl rfl⟩

/-! ## Undo/redo history (`saveHistory`, `restoreFromHistory`,
`handleUndo`, `handleRedo`, `handleDrop`)

JavaScript arrays hold references to mutable objects, and
`restoreFromHistory` assigns the stored entry's arrays to the live state
*by reference*, while `handleDrop` mutates a found capability object in
place.  To make this reference behaviour expressible, the history
subsystem is embedded as a machine over an explicit object heap: the
live `capabilities` array and each history entry's capability array hold
heap references, `JSON.parse(JSON.stringify(·))` allocates fresh
references carrying copies of the current values, and in-place field
assignment updates the heap at a shared reference. -/

structure RefState where
  heap : Nat → Capability
  nextRef : Nat
  categories : List Category
  capabilities : List Nat
  history : List (List Category × List Nat)
  historyIndex : Int

/-- The live snapshot's capability values. -/
def liveCaps (s : RefState) : List Capability := s.capabilities.map s.heap

/-- The values denoted by history entry `i` (categories are immutable
values; capabilities are read through the heap). -/
def entryAt (s : RefState) (i : Nat) : Option (List Category × List Capability) :=
  (s.history.get? i).map (fun e => (e.1, e.2.map s.heap))

/-- The fresh references allocated by one
`JSON.parse(JSON.stringify(this.capabilities))` deep copy. -/
def copyRefs (s : RefState) : List Nat :=
  (List.range s.capabilities.length).map (fun i => s.nextRef + i)

/-- The heap after that deep copy: each fresh reference holds the value
currently held by the corresponding live reference. -/
def copyHeap (s : RefState) : Nat → Capability := fun k =>
  if s.nextRef ≤ k ∧ k < s.nextRef + s.capabilities.length then
    s.heap (s.capabilities.getD (k - s.nextRef) 0)
  else s.heap k

/-- `saveHistory()`: truncate the redo tail, append a deep copy of
`{categories, capabilities}` (fresh references carrying the current
values), evict the oldest entry beyond 50, and point the cursor at the
new last entry. -/
def saveHistory (s : RefState) : RefState :=
  let h1 := s.history.take (s.historyIndex + 1).toNat ++
    [(s.categories, copyRefs s)]
  let h2 := if h1.length > 50 then h1.drop 1 else h1
  { heap := copyHeap s, nextRef := s.nextRef + s.capabilities.length,
    categories := s.categories, capabilities := s.capabilities,
    history := h2, historyIndex := (h2.length : Int) - 1 }

/-- `restoreFromHistory()`: assign the entry's arrays to the live state
by reference (no copy) when the cursor designates an entry. -/
def restoreFromHistory (s : RefState) : RefState :=
  match (if s.historyIndex < 0 then none
         else s.history.get? s.historyIndex.toNat) with
  | some e => { s with categories := e.1, capabilities := e.2 }
  | none => s

/-- `handleUndo()`: move the cursor back and restore, a no-op at
position 0 (or with empty history). -/
def handleUndo (s : RefState) : RefState :=
  if s.historyIndex > 0 then
    restoreFromHistory { s with historyIndex := s.historyIndex - 1 }
  else s

/-- `handleRedo()`: move the cursor forward and restore, a no-op at the
last position. -/
def handleRedo (s : RefState) : RefState :=
  if s.historyIndex < (s.history.length : Int) - 1 then
    restoreFromHistory { s with historyIndex := s.historyIndex + 1 }
  else s

/-- Fresh references for a wholesale rebuild of the live array. -/
def allocRefs (s : RefState) (vals : List Capability) : List Nat :=
  (List.range vals.length).map (fun i => s.nextRef + i)

/-- The heap after allocating fresh objects holding `vals`. -/
def allocHeap (s : RefState) (vals : List Capability) : Nat → Capability :=
  fun k =>
    if s.nextRef ≤ k ∧ k < s.nextRef + vals.length then
      vals.getD (k - s.nextRef) default
    else s.heap k

/-- A committed wholesale mutation: the handlers that rebuild
`this.capabilities` via `map`/spread (fresh objects) and then call
`saveHistory` — also the load path (`loadMapData` then
`saveHistory`). -/
def pushMutation (s : RefState) (cats : List Category)
    (vals : List Capability) : RefState :=
  saveHistory
    { heap := allocHeap s vals, nextRef := s.nextRef + vals.length,
      categories := cats, capabilities := allocRefs s vals,
      history := s.history, historyIndex := s.historyIndex }

/-- The in-place field assignment
`capability.Capability_Category__c = newCategoryId` at a shared
reference. -/
def setCat (h : Nat → Capability) (r : Nat) (newCat : String) :
    Nat → Capability := fun k =>
  if k = r then { h r with Capability_Category__c := newCat } else h k

/-- `handleDrop`: find the dragged capability object in the live array,
and when it is found and its category differs, reassign its category
field *in place* (a heap update at the shared reference) and save. -/
def handleDrop (s : RefState) (capId newCategoryId : String) : RefState :=
  if capId = "" ∨ newCategoryId = "" then s
  else
    match s.capabilities.find? (fun r => (s.heap r).Id == capId) with
    | some r =>
        if (s.heap r).Capability_Category__c ≠ newCategoryId then
          saveHistory { s with heap := setCat s.heap r newCategoryId }
        else s
    | none => s

/-- A user-visible history-relevant operation. -/
inductive HistOp where
  | mutate (cats : List Category) (vals : List Capability)
  | drop (capId newCategoryId : String)
  | undo
  | redo

def applyHistOp (s : RefState) : HistOp → RefState
  | .mutate cats vals => pushMutation s cats vals
  | .drop capId newCat => handleDrop s capId newCat
  | .undo => handleUndo s
  | .redo => handleRedo s

def runHist (s : RefState) (ops : List HistOp) : RefState :=
  ops.foldl applyHistOp s

/-- The freshly loaded component state: empty history, cursor −1. -/
def initState (cats : List Category) (vals : List Capability) : RefState :=
  { heap := fun k => vals.getD k default, nextRef := vals.length,
    categories := cats, capabilities := List.range vals.length,
    history := [], historyIndex := -1 }

/-- The machine invariant: all stored references are allocated, and the
cursor either sits at −1 over an empty history or designates an entry
(within a history of at most 50 entries) whose denotation is the live
state. -/
def RefInv (s : RefState) : Prop :=
  (∀ r ∈ s.capabilities, r < s.nextRef) ∧
  (∀ e ∈ s.history, ∀ r ∈ e.2, r < s.nextRef) ∧
  ((s.history = [] ∧ s.historyIndex = -1) ∨
   (0 ≤ s.historyIndex ∧ s.historyIndex < (s.history.length : Int) ∧
    s.history.length ≤ 50 ∧
    ∃ e, s.history.get? s.historyIndex.toNat = some e ∧
      e.1 = s.categories ∧ e.2.map s.heap = s.capabilities.map s.heap))

theorem map_getD_range {α β : Type} (l : List α) (f : α → β) (d : α) :
    (List.range l.length).map (fun i => f (l.getD i d)) = l.map f := by
  apply List.ext_getElem
  · simp
  · intro i h1 h2
    simp only [List.getElem_map, List.getElem_range]
    have hi : i < l.length := by simpa using h2
    rw [List.getD_eq_getElem?_getD, List.getElem?_eq_getElem hi]
    rfl

theorem copyHeap_frame (s : RefState) (r : Nat) (hr : r < s.nextRef) :
    copyHeap s r = s.heap r := by
  simp only [copyHeap]
  rw [if_neg]
  omega

theorem map_copyHeap_frame (s : RefState) (l : List Nat)
    (hl : ∀ r ∈ l, r < s.nextRef) : l.map (copyHeap s) = l.map s.heap :=
  List.map_congr_left (fun r hr => copyHeap_frame s r (hl r hr))

theorem mem_copyRefs (s : RefState) (r : Nat) (hr : r ∈ copyRefs s) :
    s.nextRef ≤ r ∧ r < s.nextRef + s.capabilities.length := by
  rw [copyRefs] at hr
  obtain ⟨i, hi, rfl⟩ := List.mem_map.mp hr
  have := List.mem_range.mp hi
  omega

theorem copyRefs_map (s : RefState)
    (hlive : ∀ r ∈ s.capabilities, r < s.nextRef) :
    (copyRefs s).map (copyHeap s) = s.capabilities.map s.heap := by
  rw [copyRefs, List.map_map]
  have h1 : ∀ i ∈ List.range s.capabilities.length,
      (copyHeap s ∘ fun i => s.nextRef + i) i =
        s.heap (s.capabilities.getD i 0) := by
    intro i hi
    have hlt : i < s.capabilities.length := List.mem_range.mp hi
    simp only [Function.comp, copyHeap]
    rw [if_pos (by omega)]
    congr 2
    omega
  rw [List.map_congr_left h1, map_getD_range]

/-- The shape, bounds, cursor and last-entry facts of one `saveHistory`
call, together with the restored invariant. -/
theorem saveHistory_spec (s : RefState)
    (hlive : ∀ r ∈ s.capabilities, r < s.nextRef)
    (hhist : ∀ e ∈ s.history, ∀ r ∈ e.2, r < s.nextRef)
    (hlen : s.history.length ≤ 50) :
    RefInv (saveHistory s) := by
  have hcats : (saveHistory s).categories = s.categories := rfl
  have hcaps : (saveHistory s).capabilities = s.capabilities := rfl
  have hheap : (saveHistory s).heap = copyHeap s := rfl
  have hnext : (saveHistory s).nextRef = s.nextRef + s.capabilities.length := rfl
  have hhist_eq : (saveHistory s).history =
      (if (s.history.take (s.historyIndex + 1).toNat ++
            [(s.categories, copyRefs s)]).length > 50 then
        (s.history.take (s.historyIndex + 1).toNat ++
          [(s.categories, copyRefs s)]).drop 1
      else
        s.history.take (s.historyIndex + 1).toNat ++
          [(s.categories, copyRefs s)]) := rfl
  have hidx_eq : (saveHistory s).historyIndex =
      ((saveHistory s).history.length : Int) - 1 := rfl
  have htake : (s.history.take (s.historyIndex + 1).toNat).length ≤
      s.history.length := List.length_take_le' _ _
  -- the new history is some prefix-tail of the old one followed by the
  -- fresh entry
  obtain ⟨t2, ht2, ht2mem⟩ : ∃ t2, (saveHistory s).history =
      t2 ++ [(s.categories, copyRefs s)] ∧ ∀ e ∈ t2, e ∈ s.history := by
    rw [hhist_eq]
    by_cases hb : (s.history.take (s.historyIndex + 1).toNat ++
        [(s.categories, copyRefs s)]).length > 50
    · rw [if_pos hb]
      have hlen1 : 1 ≤ (s.history.take (s.historyIndex + 1).toNat).length := by
        rw [List.length_append] at hb
        simp only [List.length_singleton] at hb
        omega
      rw [List.drop_append_of_le_length hlen1]
      exact ⟨_, rfl, fun e he =>
        List.mem_of_mem_take (List.mem_of_mem_drop he)⟩
    · rw [if_neg hb]
      exact ⟨_, rfl, fun e he => List.mem_of_mem_take he⟩
  have hlen2 : (saveHistory s).history.length ≤ 50 := by
    rw [hhist_eq]
    by_cases hb : (s.history.take (s.historyIndex + 1).toNat ++
        [(s.categories, copyRefs s)]).length > 50
    · rw [if_pos hb]
      rw [List.length_drop, List.length_append, List.length_singleton]
      omega
    · rw [if_neg hb]
      omega
  have hpos : 1 ≤ (saveHistory s).history.length := by
    rw [ht2, List.length_append, List.length_singleton]
    omega
  have hlast : (saveHistory s).history.get?
      ((saveHistory s).history.length - 1) =
      some (s.categories, copyRefs s) := by
    rw [ht2, List.length_append, List.length_singleton,
      Nat.add_sub_cancel, List.get?_concat_length]
  refine ⟨?_, ?_, Or.inr ⟨?_, ?_, hlen2, ?_⟩⟩
  · intro r hr
    rw [hcaps] at hr
    rw [hnext]
    exact lt_of_lt_of_le (hlive r hr) (Nat.le_add_right _ _)
  · intro e he r hr
    rw [ht2] at he
    rw [hnext]
    rcases List.mem_append.mp he with he | he
    · exact lt_of_lt_of_le (hhist e (ht2mem e he) r hr) (Nat.le_add_right _ _)
    · rw [List.mem_singleton] at he
      subst he
      exact (mem_copyRefs s r hr).2
  · rw [hidx_eq]
    omega
  · rw [hidx_eq]
    omega
  · refine ⟨(s.categories, copyRefs s), ?_, rfl, ?_⟩
    · rw [hidx_eq]
      have htn : (((saveHistory s).history.length : Int) - 1).toNat =
          (saveHistory s).history.length - 1 := by omega
      rw [htn, hlast]
    · rw [hheap, hcaps]
      rw [copyRefs_map s hlive, map_copyHeap_frame s _ hlive]

theorem restoreFromHistory_of_get? (s : RefState)
    (e : List Category × List Nat)
    (h0 : 0 ≤ s.historyIndex)
    (he : s.history.get? s.historyIndex.toNat = some e) :
    restoreFromHistory s =
      { s with categories := e.1, capabilities := e.2 } := by
  rw [restoreFromHistory, if_neg (by omega), he]

theorem refInv_handleUndo (s : RefState) (h : RefInv s) :
    RefInv (handleUndo s) := by
  obtain ⟨hlive, hhist, hinv⟩ := h
  rw [handleUndo]
  by_cases hidx : s.historyIndex > 0
  · rw [if_pos hidx]
    rcases hinv with ⟨hnil, hm⟩ | ⟨h0, hlt, hlen, e, he, he1, he2⟩
    · exact absurd hm (by omega)
    · have hlt' : (s.historyIndex - 1).toNat < s.history.length := by omega
      obtain ⟨e', he'⟩ : ∃ e',
          s.history.get? (s.historyIndex - 1).toNat = some e' :=
        ⟨_, List.get?_eq_get hlt'⟩
      have hrw : restoreFromHistory { s with historyIndex := s.historyIndex - 1 } =
          { s with historyIndex := s.historyIndex - 1,
                   categories := e'.1, capabilities := e'.2 } := by
        rw [restoreFromHistory_of_get?
          ({ s with historyIndex := s.historyIndex - 1 }) e'
          (by show (0:Int) ≤ s.historyIndex - 1; omega) he']
      rw [hrw]
      exact ⟨fun r hr => hhist e' (List.get?_mem he') r hr,
             fun e2 he2' r hr => hhist e2 he2' r hr,
             Or.inr ⟨by show (0:Int) ≤ s.historyIndex - 1; omega,
               by show s.historyIndex - 1 < (s.history.length : Int); omega,
               hlen, e', he', rfl, rfl⟩⟩
  · rw [if_neg hidx]
    exact ⟨hlive, hhist, hinv⟩

theorem refInv_handleRedo (s : RefState) (h : RefInv s) :
    RefInv (handleRedo s) := by
  obtain ⟨hlive, hhist, hinv⟩ := h
  rw [handleRedo]
  by_cases hidx : s.historyIndex < (s.history.length : Int) - 1
  · rw [if_pos hidx]
    rcases hinv with ⟨hnil, hm⟩ | ⟨h0, hlt, hlen, e, he, he1, he2⟩
    · exfalso
      rw [hnil] at hidx
      simp only [List.length_nil, Nat.cast_zero] at hidx
      omega
    · have hlt' : (s.historyIndex + 1).toNat < s.history.length := by omega
      obtain ⟨e', he'⟩ : ∃ e',
          s.history.get? (s.historyIndex + 1).toNat = some e' :=
        ⟨_, List.get?_eq_get hlt'⟩
      have hrw : restoreFromHistory { s with historyIndex := s.historyIndex + 1 } =
          { s with historyIndex := s.historyIndex + 1,
                   categories := e'.1, capabilities := e'.2 } := by
        rw [restoreFromHistory_of_get?
          ({ s with historyIndex := s.historyIndex + 1 }) e'
          (by show (0:Int) ≤ s.historyIndex + 1; omega) he']
      rw [hrw]
      exact ⟨fun r hr => hhist e' (List.get?_mem he') r hr,
             fun e2 he2' r hr => hhist e2 he2' r hr,
             Or.inr ⟨by show (0:Int) ≤ s.historyIndex + 1; omega,
               by show s.historyIndex + 1 < (s.history.length : Int); omega,
               hlen, e', he', rfl, rfl⟩⟩
  · rw [if_neg hidx]
    exact ⟨hlive, hhist, hinv⟩

theorem refInv_pushMutation (s : RefState) (cats : List Category)
    (vals : List Capability) (h : RefInv s) :
    RefInv (pushMutation s cats vals) := by
  obtain ⟨hlive, hhist, hinv⟩ := h
  rw [pushMutation]
  apply saveHistory_spec
  · intro r hr
    rw [allocRefs] at hr
    obtain ⟨i, hi, rfl⟩ := List.mem_map.mp hr
    have := List.mem_range.mp hi
    show s.nextRef + i < s.nextRef + vals.length
    omega
  · intro e he r hr
    show r < s.nextRef + vals.length
    exact lt_of_lt_of_le (hhist e he r hr) (Nat.le_add_right _ _)
  · show s.history.length ≤ 50
    rcases hinv with ⟨hnil, _⟩ | ⟨_, _, hlen, _⟩
    · rw [hnil]
      simp
    · exact hlen

theorem refInv_handleDrop (s : RefState) (capId newCat : String)
    (h : RefInv s) : RefInv (handleDrop s capId newCat) := by
  obtain ⟨hlive, hhist, hinv⟩ := h
  rw [handleDrop]
  by_cases hg : capId = "" ∨ newCat = ""
  · rw [if_pos hg]
    exact ⟨hlive, hhist, hinv⟩
  · rw [if_neg hg]
    cases hf : s.capabilities.find? (fun r => (s.heap r).Id == capId) with
    | none => exact ⟨hlive, hhist, hinv⟩
    | some r =>
        show RefInv (if (s.heap r).Capability_Category__c ≠ newCat then
          saveHistory { s with heap := setCat s.heap r newCat } else s)
        by_cases hc : (s.heap r).Capability_Category__c ≠ newCat
        · rw [if_pos hc]
          apply saveHistory_spec
          · exact hlive
          · exact hhist
          · rcases hinv with ⟨hnil, _⟩ | ⟨_, _, hlen, _⟩
            · rw [hnil]
              simp
            · exact hlen
        · rw [if_neg hc]
          exact ⟨hlive, hhist, hinv⟩

theorem refInv_initState (cats : List Category) (vals : List Capability) :
    RefInv (initState cats vals) := by
  refine ⟨?_, ?_, Or.inl ⟨rfl, rfl⟩⟩
  · intro r hr
    exact List.mem_range.mp hr
  · intro e he r hr
    exact absurd he (List.not_mem_nil e)

theorem refInv_runHist (cats : List Category) (vals : List Capability)
    (ops : List HistOp) : RefInv (runHist (initState cats vals) ops) := by
  rw [runHist]
  have aux : ∀ (ops : List HistOp) (s : RefState), RefInv s →
      RefInv (ops.foldl applyHistOp s) := by
    intro ops
    induction ops with
    | nil => exact fun s h => h
    | cons op ops ih =>
        intro s h
        rw [List.foldl_cons]
        apply ih
        cases op with
        | mutate cats vals => exact refInv_pushMutation s cats vals h
        | drop a b => exact refInv_handleDrop s a b h
        | undo => exact refInv_handleUndo s h
        | redo => exact refInv_handleRedo s h
  exact aux ops _ (refInv_initState cats vals)

/-- C5: the history list's length never exceeds the configured cap of
50, after any sequence of committed mutations, drops, undos and
redos from the initial state. -/
theorem history_length_bounded (cats : List Category)
    (vals : List Capability) (ops : List HistOp) :
    (runHist (initState cats vals) ops).history.length ≤ 50 := by
  rcases (refInv_runHist cats vals ops).2.2 with ⟨hnil, _⟩ | ⟨_, _, hlen, _⟩
  · rw [hnil]
    simp
  · exact hlen

/-- C6: from the initial state, after any operation sequence the cursor
either is −1 over an empty history or lies inside the history; undo at
position 0 and redo at the last position are no-ops. -/
theorem history_cursor_invariant (cats : List Category)
    (vals : List Capability) (ops : List HistOp) :
    (((runHist (initState cats vals) ops).history = [] ∧
        (runHist (initState cats vals) ops).historyIndex = -1) ∨
      (0 ≤ (runHist (initState cats vals) ops).historyIndex ∧
        (runHist (initState cats vals) ops).historyIndex <
          ((runHist (initState cats vals) ops).history.length : Int))) ∧
    ((runHist (initState cats vals) ops).historyIndex = 0 →
      handleUndo (runHist (initState cats vals) ops) =
        runHist (initState cats vals) ops) ∧
    ((runHist (initState cats vals) ops).historyIndex =
        ((runHist (initState cats vals) ops).history.length : Int) - 1 →
      handleRedo (runHist (initState cats vals) ops) =
        runHist (initState cats vals) ops) := by
  refine ⟨?_, ?_, ?_⟩
  · rcases (refInv_runHist cats vals ops).2.2 with ⟨hnil, hm⟩ | ⟨h0, hlt, _, _⟩
    · exact Or.inl ⟨hnil, hm⟩
    · exact Or.inr ⟨h0, hlt⟩
  · intro h0
    rw [handleUndo, if_neg (by omega)]
  · intro hl
    rw [handleRedo, if_neg (by omega)]

theorem history_cursor_invariant_witness :
    (runHist (initState [scenCat1] [scenCapA])
      [HistOp.mutate [scenCat1] [scenCapA]]).historyIndex = 0 ∧
    handleUndo (runHist (initState [scenCat1] [scenCapA])
        [HistOp.mutate [scenCat1] [scenCapA]]) =
      runHist (initState [scenCat1] [scenCapA])
        [HistOp.mutate [scenCat1] [scenCapA]] ∧
    (runHist (initState [scenCat1] [scenCapA])
        [HistOp.mutate [scenCat1] [scenCapA]]).historyIndex =
      ((runHist (initState [scenCat1] [scenCapA])
        [HistOp.mutate [scenCat1] [scenCapA]]).history.length : Int) - 1 ∧
    handleRedo (runHist (initState [scenCat1] [scenCapA])
        [HistOp.mutate [scenCat1] [scenCapA]]) =
      runHist (initState [scenCat1] [scenCapA])
        [HistOp.mutate [scenCat1] [scenCapA]] := by
  have h := history_cursor_invariant [scenCat1] [scenCapA]
    [HistOp.mutate [scenCat1] [scenCapA]]
  exact ⟨by decide, h.2.1 (by decide), by decide, h.2.2 (by decide)⟩

/-- Undo followed by redo restores the pre-undo live state, for any
state satisfying the machine invariant whose cursor is above 0. -/
theorem undo_redo_of_inv (s : RefState) (hs : RefInv s)
    (hidx : s.historyIndex > 0) :
    (handleRedo (handleUndo s)).categories = s.categories ∧
    liveCaps (handleRedo (handleUndo s)) = liveCaps s := by
  obtain ⟨hlive, hhist, hinv⟩ := hs
  rcases hinv with ⟨hnil, hm⟩ | ⟨h0, hlt, hlen, e, he, he1, he2⟩
  · exact absurd hm (by omega)
  · have hlt' : (s.historyIndex - 1).toNat < s.history.length := by omega
    obtain ⟨e', he'⟩ : ∃ e',
        s.history.get? (s.historyIndex - 1).toNat = some e' :=
      ⟨_, List.get?_eq_get hlt'⟩
    have hundo : handleUndo s =
        { s with historyIndex := s.historyIndex - 1,
                 categories := e'.1, capabilities := e'.2 } := by
      rw [handleUndo, if_pos hidx,
        restoreFromHistory_of_get?
          ({ s with historyIndex := s.historyIndex - 1 }) e'
          (by show (0:Int) ≤ s.historyIndex - 1; omega) he']
    rw [hundo]
    have hguard : ({ s with historyIndex := s.historyIndex - 1,
                            categories := e'.1,
                            capabilities := e'.2 } : RefState).historyIndex <
        (({ s with historyIndex := s.historyIndex - 1,
                   categories := e'.1,
                   capabilities := e'.2 } : RefState).history.length : Int) - 1 := by
      show s.historyIndex - 1 < (s.history.length : Int) - 1
      omega
    have he'' : s.history.get? (s.historyIndex - 1 + 1).toNat = some e := by
      have hidx1 : s.historyIndex - 1 + 1 = s.historyIndex := by omega
      rw [hidx1]
      exact he
    have hredo : handleRedo { s with historyIndex := s.historyIndex - 1,
                                     categories := e'.1,
                                     capabilities := e'.2 } =
        { s with historyIndex := s.historyIndex - 1 + 1,
                 categories := e.1, capabilities := e.2 } := by
      rw [handleRedo, if_pos hguard,
        restoreFromHistory_of_get?
          ({ s with historyIndex := s.historyIndex - 1 + 1,
                    categories := e'.1,
                    capabilities := e'.2 }) e
          (by show (0:Int) ≤ s.historyIndex - 1 + 1; omega) he'']
    rw [hredo]
    exact ⟨he1, by rw [liveCaps, liveCaps]; exact he2⟩

/-- C4: for any state reached from the initial state whose cursor is
above position 0, undo followed by redo yields categories and
capability values structurally equal to the state before the undo. -/
theorem undo_redo_roundtrip (cats : List Category) (vals : List Capability)
    (ops : List HistOp)
    (hidx : (runHist (initState cats vals) ops).historyIndex > 0) :
    (handleRedo (handleUndo (runHist (initState cats vals) ops))).categories
      = (runHist (initState cats vals) ops).categories ∧
    liveCaps (handleRedo (handleUndo (runHist (initState cats vals) ops)))
      = liveCaps (runHist (initState cats vals) ops) :=
  undo_redo_of_inv _ (refInv_runHist cats vals ops) hidx

def roundtripOps : List HistOp :=
  [HistOp.mutate [scenCat1] [scenCapA], HistOp.mutate [scenCat1] [scenCapB]]

theorem undo_redo_roundtrip_witness :
    (runHist (initState [scenCat1] [scenCapA]) roundtripOps).historyIndex > 0 ∧
    (handleRedo (handleUndo (runHist (initState [scenCat1] [scenCapA])
        roundtripOps))).categories =
      (runHist (initState [scenCat1] [scenCapA]) roundtripOps).categories ∧
    liveCaps (handleRedo (handleUndo (runHist (initState [scenCat1] [scenCapA])
        roundtripOps))) =
      liveCaps (runHist (initState [scenCat1] [scenCapA]) roundtripOps) := by
  have h := undo_redo_roundtrip [scenCat1] [scenCapA] roundtripOps (by decide)
  exact ⟨by decide, h.1, h.2⟩

/-! ## The aliasing defect behind claim C8

`saveHistory` stores deep copies, but `restoreFromHistory` hands the
stored entry's array back to the live state by reference, and
`handleDrop` then mutates the found capability object in place — which
rewrites the stored history entry as well.  The trace below exhibits it:
load, move "X" to `cat2`, undo (live state now aliases entry 0), then
move "X" to `cat2` again; entry 0's denotation silently changes from
`cat1` to `cat2`, even though `handleDrop` never writes to the history
list itself. -/

def aliasCat1 : Category :=
  { Id := "cat1", Name := "One", Sort_Order__c := 0,
    Is_Subcategory__c := false }

def aliasCat2 : Category :=
  { Id := "cat2", Name := "Two", Sort_Order__c := 1,
    Is_Subcategory__c := false }

def aliasCapX : Capability :=
  { Id := "X", Name := "Ex", Capability_Category__c := "cat1",
    Size__c := "M", Phase__c := none, Color__c := none,
    Calculated_Hours__c := 0, Hours_Override__c := 0, Sort_Order__c := 0 }

def aliasCapY : Capability :=
  { Id := "Y", Name := "Why", Capability_Category__c := "cat1",
    Size__c := "S", Phase__c := none, Color__c := none,
    Calculated_Hours__c := 0, Hours_Override__c := 0, Sort_Order__c := 1 }

/-- The state after load, a first move of "X", and an undo: the live
capability array is the same reference list as history entry 0's. -/
def aliasPre : RefState :=
  runHist (initState [aliasCat1, aliasCat2] [aliasCapX, aliasCapY])
    [HistOp.mutate [aliasCat1, aliasCat2] [aliasCapX, aliasCapY],
     HistOp.drop "X" "cat2", HistOp.undo]

/-- The state after then dropping "X" onto `cat2` once more. -/
def aliasPost : RefState := handleDrop aliasPre "X" "cat2"

/-- C8 failing trace: before the second drop, history entry 0 denotes
"X" in `cat1`; the drop mutates the shared object in place, so the same
stored entry (same references, untouched history list prefix) now
denotes "X" in `cat2` — a later in-place mutation of live state changed
a stored history entry. -/
theorem history_entry_corrupted_by_aliased_restore :
    entryAt aliasPre 0 =
      some ([aliasCat1, aliasCat2], [aliasCapX, aliasCapY]) ∧
    aliasPost.history.get? 0 = aliasPre.history.get? 0 ∧
    entryAt aliasPost 0 =
      some ([aliasCat1, aliasCat2],
        [{ aliasCapX with Capability_Category__c := "cat2" }, aliasCapY]) ∧
    entryAt aliasPost 0 ≠ entryAt aliasPre 0 :=
  ⟨by decide, by decide, by decide, by decide⟩

/-! ## Bulk size change (`getHoursForSize`, `handleBulkApplied`) -/

/-- `getHoursForSize(size)`: 0 without a map record, for a falsy or
`TBD` size, or for a size without a configured field; otherwise the
map's configured hours for the size (`|| 0` is the identity in the `Nat`
embedding of the nullable hour fields). -/
def getHoursForSize (capabilityMap : Option CapabilityMapRecord)
    (size : String) : Nat :=
  match capabilityMap with
  | none => 0
  | some m =>
      if size = "" ∨ size = "TBD" then 0
      else
        match size with
        | "XS" => m.XS_Hours__c
        | "S" => m.S_Hours__c
        | "M" => m.M_Hours__c
        | "L" => m.L_Hours__c
        | "XL" => m.XL_Hours__c
        | "XXL" => m.XXL_Hours__c
        | "XXXL" => m.XXXL_Hours__c
        | _ => 0

/-- `handleBulkApplied(event)` for the size flow: the bulk size modal
dispatches its `applied` event with `field: 'Size__c'`, so the dynamic
`[field]: value` update sets `Size__c`; the handler also recomputes
`Calculated_Hours__c` as `cap.Hours_Override__c || newHours` for every
selected capability. -/
def handleBulkApplied (capabilityMap : Option CapabilityMapRecord)
    (caps : List Capability) (selectedIds : List String)
    (value : String) : List Capability :=
  let newHours := getHoursForSize capabilityMap value
  caps.map (fun cap =>
    if selectedIds.contains cap.Id then
      { cap with
        Size__c := value
        Calculated_Hours__c :=
          if cap.Hours_Override__c ≠ 0 then cap.Hours_Override__c
          else newHours }
    else cap)

/-- C7: after a bulk size change to `value`, each selected capability's
size is `value` and its computed hours are the per-map configured hours
for `value`, unless the capability carries a (non-zero) hours override,
which wins; unselected capabilities are untouched. -/
theorem handleBulkApplied_hours (capabilityMap : Option CapabilityMapRecord)
    (caps : List Capability) (selectedIds : List String) (value : String)
    (k : Nat) (c : Capability) (hk : caps.get? k = some c) :
    (selectedIds.contains c.Id = true →
      (handleBulkApplied capabilityMap caps selectedIds value).get? k =
        some { c with
          Size__c := value
          Calculated_Hours__c :=
            if c.Hours_Override__c ≠ 0 then c.Hours_Override__c
            else getHoursForSize capabilityMap value }) ∧
    (selectedIds.contains c.Id = false →
      (handleBulkApplied capabilityMap caps selectedIds value).get? k =
        some c) := by
  constructor
  · intro hsel
    rw [handleBulkApplied, List.get?_map, hk, Option.map_some', hsel]
    rfl
  · intro hsel
    rw [handleBulkApplied, List.get?_map, hk, Option.map_some', hsel]
    rfl

/-- The scenario's map record: XL is configured as 32 hours. -/
def hoursMapXL : CapabilityMapRecord :=
  { XS_Hours__c := 2, S_Hours__c := 4, M_Hours__c := 8, L_Hours__c := 16,
    XL_Hours__c := 32, XXL_Hours__c := 48, XXXL_Hours__c := 64 }

def bulkCapA : Capability :=
  { Id := "A", Name := "Alpha", Capability_Category__c := "cat1",
    Size__c := "M", Phase__c := none, Color__c := none,
    Calculated_Hours__c := 8, Hours_Override__c := 0, Sort_Order__c := 0 }

def bulkCapC : Capability :=
  { Id := "C", Name := "Gamma", Capability_Category__c := "cat2",
    Size__c := "L", Phase__c := none, Color__c := none,
    Calculated_Hours__c := 16, Hours_Override__c := 0, Sort_Order__c := 1 }

theorem handleBulkApplied_hours_witness :
    ([bulkCapA, bulkCapC].get? 0 = some bulkCapA) ∧
    (["A", "C"] : List String).contains bulkCapA.Id = true ∧
    (handleBulkApplied (some hoursMapXL) [bulkCapA, bulkCapC] ["A", "C"]
        "XL").get? 0 =
      some { bulkCapA with Size__c := "XL", Calculated_Hours__c := 32 } ∧
    (handleBulkApplied (some hoursMapXL) [bulkCapA, bulkCapC] ["A", "C"]
        "XL").map (fun c => c.Calculated_Hours__c) = [32, 32] := by
  have h := handleBulkApplied_hours (some hoursMapXL) [bulkCapA, bulkCapC]
    ["A", "C"] "XL" 0 bulkCapA (by decide)
  exact ⟨by decide, by decide, (h.1 (by decide)).trans (by decide), by decide⟩

end CapMap
